import Mathlib

/-!
Verification of the `toy-vec` growable vector (`src/bicycle-book/ch07/toy-vec/src/lib.rs`).

The Rust code is shallowly embedded as follows:
* `Box<[T]>` becomes `List T`; the capacity is the length of that list.
* The `T: Default` bound becomes an explicit parameter `d : T` standing for
  `Default::default()`.
* Operations that can panic (out-of-bounds slice indexing) return an `Option`:
  `none` models a panic, `some` a normal return.  Rust's `Option` return values
  are modelled by an inner `Option`, so e.g. `pop` returns
  `Option (Option T × ToyVec T)`: outer `none` = panic, inner `none` = Rust `None`.
* The method `len()` in the source calls itself unconditionally
  (`pub fn len(&self) -> usize { self.len() }`); it is modelled with explicit
  fuel as `lenCall`, which returns `none` (non-termination) when fuel runs out.
-/

/-- Embedding of `ToyVec<T>`: `elements` is the owned slice (one entry per
capacity slot), `len` is the logical length field. -/
structure ToyVec (T : Type) where
  elements : List T
  len : Nat
  deriving Repr, DecidableEq

namespace ToyVec

variable {T : Type}

/-- `allocate_in_heap(size)`: a block of `size` slots, each holding the default
value `d`. -/
def allocate_in_heap (d : T) (size : Nat) : List T :=
  List.replicate size d

/-- `with_capacity(capacity)`: length 0, storage of `capacity` default slots. -/
def with_capacity (d : T) (capacity : Nat) : ToyVec T :=
  { elements := allocate_in_heap d capacity, len := 0 }

/-- `new()`: `with_capacity(0)`. -/
def new (d : T) : ToyVec T :=
  with_capacity d 0

/-- `capacity()`: the length of the owned slice. -/
def capacity (v : ToyVec T) : Nat :=
  v.elements.length

/-- The source's `len()` method, which reads
`pub fn len(&self) -> usize { self.len() }` — an unconditional self-call.
Modelled with fuel: each step consumes one unit of fuel and recurses, so the
call never produces a value (`none` models non-termination / stack overflow). -/
def lenCall (v : ToyVec T) : Nat → Option Nat
  | 0 => none
  | fuel + 1 => v.lenCall fuel

/-- The intended `len()` per the spec: the value of the `len` field. -/
def lenSpec (v : ToyVec T) : Nat :=
  v.len

/-- The index-`i` loop body of `grow`: `self.elements[i] = elem` for each
element of the old storage in order, starting at index `start`. -/
def moveLoop (dst : List T) : List T → Nat → List T
  | [], _ => dst
  | e :: rest, i => moveLoop (dst.set i e) rest (i + 1)

/-- `grow()`: capacity 0 becomes 1; otherwise a fresh block of twice the
capacity is allocated and every old element is moved to the same index. -/
def grow (d : T) (v : ToyVec T) : ToyVec T :=
  if v.capacity = 0 then
    { elements := allocate_in_heap d 1, len := v.len }
  else
    let newElements := allocate_in_heap d (v.capacity * 2)
    { elements := moveLoop newElements v.elements 0, len := v.len }

/-- `push(element)`: grow when `len == capacity`, then write `element` at index
`len` (a panic — `none` — if that index is out of bounds) and increment `len`. -/
def push (d : T) (v : ToyVec T) (element : T) : Option (ToyVec T) :=
  let w := if v.len = v.capacity then v.grow d else v
  if w.len < w.elements.length then
    some { elements := w.elements.set w.len element, len := w.len + 1 }
  else
    none

/-- `get(index)`: `Some(&elements[index])` when `index < len`, else `None`.
The outer `Option` is the panic of the slice indexing (unreachable while
`len <= capacity`). -/
def get (v : ToyVec T) (index : Nat) : Option (Option T) :=
  if index < v.len then
    match v.elements[index]? with
    | some x => some (some x)
    | none => none
  else
    some none

/-- `get_or(index, default)`: `get(index)` with `None` replaced by `default`. -/
def get_or (v : ToyVec T) (index : Nat) (default : T) : Option T :=
  match v.get index with
  | some (some x) => some x
  | some none => some default
  | none => none

/-- `pop()`: on `len == 0` return `None`; otherwise decrement `len`, take the
element at the new `len` (replacing the slot with the default value) and return
it.  The outer `Option` is the panic of the slot indexing. -/
def pop (d : T) (v : ToyVec T) : Option (Option T × ToyVec T) :=
  if v.len = 0 then
    some (none, v)
  else
    let newLen := v.len - 1
    match v.elements[newLen]? with
    | some elem =>
        some (some elem, { elements := v.elements.set newLen d, len := newLen })
    | none => none

end ToyVec

/-- Embedding of `Iter<'vec, T>`: a borrowed view of the storage, the length
snapshot, and the next position to yield. -/
structure Iter (T : Type) where
  elements : List T
  len : Nat
  pos : Nat
  deriving Repr, DecidableEq

namespace ToyVec

/-- `iter()`: borrow the storage, snapshot the length, start at position 0. -/
def iter {T : Type} (v : ToyVec T) : Iter T :=
  { elements := v.elements, len := v.len, pos := 0 }

end ToyVec

namespace Iter

/-- `next()`: `None` when `pos > len` (note `>`, not `>=`, exactly as in the
source); otherwise yield `elements[pos]` (a panic — outer `none` — if `pos` is
out of bounds of the storage) and advance `pos`. -/
def next {T : Type} (it : Iter T) : Option (Option T × Iter T) :=
  if it.pos > it.len then
    some (none, it)
  else
    match it.elements[it.pos]? with
    | some x => some (some x, { it with pos := it.pos + 1 })
    | none => none

end Iter

/-! ### Helper lemmas about the embedded operations -/

namespace ToyVec

variable {T : Type}

theorem length_allocate (d : T) (n : Nat) : (allocate_in_heap d n).length = n := by
  simp [allocate_in_heap]

theorem moveLoop_length (old : List T) (dst : List T) (i : Nat) :
    (moveLoop dst old i).length = dst.length := by
  induction old generalizing dst i with
  | nil => rfl
  | cons e rest ih => simp [moveLoop, ih]

theorem moveLoop_get_lt (old : List T) (dst : List T) (i j : Nat) (h : j < i) :
    (moveLoop dst old i)[j]? = dst[j]? := by
  induction old generalizing dst i with
  | nil => rfl
  | cons e rest ih =>
    rw [moveLoop, ih _ (i + 1) (Nat.lt_succ_of_lt h),
      List.getElem?_set_ne (by omega)]

theorem moveLoop_get (old : List T) (dst : List T) (i j : Nat)
    (hle : i + old.length ≤ dst.length) (hj : j < old.length) :
    (moveLoop dst old i)[i + j]? = old[j]? := by
  induction old generalizing dst i j with
  | nil => cases hj
  | cons e rest ih =>
    cases j with
    | zero =>
      rw [moveLoop, moveLoop_get_lt rest (dst.set i e) (i + 1) (i + 0) (by omega)]
      simp only [Nat.add_zero, List.getElem?_cons_zero]
      exact List.getElem?_set_eq_of_lt e (by simp at hle; omega)
    | succ j =>
      have hgoal := ih (dst.set i e) (i + 1) j
        (by simp at hle ⊢; omega) (by simp at hj; omega)
      have harith : i + (j + 1) = (i + 1) + j := by omega
      rw [moveLoop, harith, hgoal]
      simp

theorem grow_len (d : T) (v : ToyVec T) : (v.grow d).len = v.len := by
  unfold grow
  split <;> rfl

theorem grow_capacity (d : T) (v : ToyVec T) :
    (v.grow d).capacity = if v.capacity = 0 then 1 else v.capacity * 2 := by
  unfold grow
  split <;> simp_all [capacity, allocate_in_heap, moveLoop_length]

theorem grow_get (d : T) (v : ToyVec T) (i : Nat) (hi : i < v.capacity) :
    (v.grow d).elements[i]? = v.elements[i]? := by
  have h : ¬v.capacity = 0 := by omega
  unfold grow
  rw [if_neg h]
  show (moveLoop (allocate_in_heap d (v.capacity * 2)) v.elements 0)[i]? = _
  have hmv := moveLoop_get v.elements (allocate_in_heap d (v.capacity * 2)) 0 i
    (by rw [length_allocate]; show 0 + v.capacity ≤ v.capacity * 2; omega) hi
  simpa using hmv

theorem push_eq (d : T) (v : ToyVec T) (x : T) :
    v.push d x =
      if (if v.len = v.capacity then v.grow d else v).len <
          (if v.len = v.capacity then v.grow d else v).elements.length then
        some { elements :=
                 (if v.len = v.capacity then v.grow d else v).elements.set
                   (if v.len = v.capacity then v.grow d else v).len x,
               len := (if v.len = v.capacity then v.grow d else v).len + 1 }
      else none := rfl

/-- Full behavioural description of `push` on any state satisfying the
representation invariant `len ≤ capacity`. -/
theorem push_spec_aux (d : T) (v : ToyVec T) (x : T) (h : v.len ≤ v.capacity) :
    ∃ v', v.push d x = some v' ∧
      v'.len = v.len + 1 ∧
      v'.elements[v.len]? = some x ∧
      v'.capacity =
        (if v.len = v.capacity then (if v.capacity = 0 then 1 else v.capacity * 2)
         else v.capacity) ∧
      (∀ i, i < v.len → v'.elements[i]? = v.elements[i]?) := by
  by_cases hfull : v.len = v.capacity
  · have hcap := grow_capacity d v
    have hlen := grow_len d v
    have hroom : (v.grow d).len < (v.grow d).elements.length := by
      show (v.grow d).len < (v.grow d).capacity
      rw [hcap, hlen]
      split <;> omega
    refine ⟨{ elements := (v.grow d).elements.set (v.grow d).len x,
              len := (v.grow d).len + 1 }, ?_, ?_, ?_, ?_, ?_⟩
    · rw [push_eq, if_pos hfull, if_pos hroom]
    · simp [hlen]
    · show ((v.grow d).elements.set (v.grow d).len x)[v.len]? = some x
      rw [← hlen]
      exact List.getElem?_set_eq_of_lt x hroom
    · rw [if_pos hfull]
      show ((v.grow d).elements.set (v.grow d).len x).length = _
      rw [List.length_set]
      exact hcap
    · intro i hi
      show ((v.grow d).elements.set (v.grow d).len x)[i]? = _
      rw [List.getElem?_set_ne (by omega), grow_get d v i (by omega)]
  · have hroom : v.len < v.elements.length := by
      show v.len < v.capacity
      omega
    refine ⟨{ elements := v.elements.set v.len x, len := v.len + 1 },
        ?_, rfl, ?_, ?_, ?_⟩
    · rw [push_eq, if_neg hfull, if_pos hroom]
    · exact List.getElem?_set_eq_of_lt x hroom
    · rw [if_neg hfull]
      show (v.elements.set v.len x).length = v.capacity
      rw [List.length_set]
      rfl
    · intro i hi
      exact List.getElem?_set_ne (by omega)

end ToyVec

namespace ToyVec

variable {T : Type}

theorem pop_eq (d : T) (v : ToyVec T) :
    v.pop d =
      if v.len = 0 then some (none, v)
      else
        match v.elements[v.len - 1]? with
        | some elem =>
            some (some elem,
              { elements := v.elements.set (v.len - 1) d, len := v.len - 1 })
        | none => none := rfl

/-- A sequence of pushes, propagating the panic marker. -/
def pushList (d : T) (v : ToyVec T) : List T → Option (ToyVec T)
  | [] => some v
  | x :: xs =>
    match v.push d x with
    | some v' => pushList d v' xs
    | none => none

/-- The capacities reachable by the doubling policy, together with the
starting capacity 0. -/
def GoodCap (c : Nat) : Prop :=
  c = 0 ∨ ∃ k, c = 2 ^ k

theorem pushList_spec_aux (d : T) (xs : List T) :
    ∀ v : ToyVec T, v.len ≤ v.capacity → GoodCap v.capacity →
      ∃ w, pushList d v xs = some w ∧ w.len = v.len + xs.length ∧
        w.len ≤ w.capacity ∧ GoodCap w.capacity := by
  induction xs with
  | nil =>
    intro v h hg
    exact ⟨v, rfl, by simp, h, hg⟩
  | cons x xs ih =>
    intro v h hg
    obtain ⟨v', hpush, hlen, hget, hcap, hpres⟩ := push_spec_aux d v x h
    have hinv' : v'.len ≤ v'.capacity := by
      rw [hlen, hcap]
      by_cases hfull : v.len = v.capacity
      · rw [if_pos hfull]
        split <;> omega
      · rw [if_neg hfull]
        omega
    have hg' : GoodCap v'.capacity := by
      rw [hcap]
      by_cases hfull : v.len = v.capacity
      · rw [if_pos hfull]
        rcases hg with h0 | ⟨k, hk⟩
        · rw [if_pos h0]
          exact Or.inr ⟨0, rfl⟩
        · rw [if_neg (by rw [hk]; exact (pow_pos (by norm_num) k).ne')]
          exact Or.inr ⟨k + 1, by rw [hk, pow_succ]⟩
      · rw [if_neg hfull]
        exact hg
    obtain ⟨w, hw, hwlen, hwinv, hwg⟩ := ih v' hinv' hg'
    refine ⟨w, ?_, ?_, hwinv, hwg⟩
    · show (match v.push d x with
        | some v' => pushList d v' xs
        | none => none) = some w
      rw [hpush]
      exact hw
    · rw [hwlen, hlen]
      simp
      omega

end ToyVec

/-! ### The claims -/

/-- C1: the spec claims `len()` returns the occupied-element count (the `len`
field) with no side effects.  In the source, `len()` is
`pub fn len(&self) -> usize { self.len() }`: it calls itself unconditionally
and never returns.  Modelled with fuel, the call produces no value for any
fuel on any container — the code contradicts the claim, whose evident intent
is returning the `len` field (`lenSpec`). -/
theorem c1_len_method_never_returns (T : Type) (fuel : Nat) (v : ToyVec T) :
    v.lenCall fuel = none := by
  induction fuel with
  | zero => rfl
  | succ n ih => exact ih

/-- C2: the claim says that once the iterator's position reaches the snapshot
length, every further `next()` returns the absence marker.  At the failing
input — `with_capacity(2)` followed by `push(42)` — the second `next()` call
(position = length = 1) instead yields the placeholder element `Some 0`,
because the source's stop condition is `pos > len` rather than `pos >= len`. -/
theorem c2_iter_yields_placeholder_at_length :
    (((ToyVec.with_capacity (0 : Nat) 2).push 0 42).bind fun v =>
        (v.iter.next.bind fun p => p.2.next).map Prod.fst) = some (some 0) := by
  rfl

/-- C3: on any container satisfying the representation invariant
`len ≤ capacity`, `get i` returns a value exactly when `i < len`, and an
out-of-range index returns the absence marker (`some none` — a normal Rust
`None` return), never the panic marker. -/
theorem c3_get_index_range (T : Type) (v : ToyVec T) (i : Nat)
    (h : v.len ≤ v.capacity) :
    ((∃ x, v.get i = some (some x)) ↔ i < v.len) ∧
    (v.len ≤ i → v.get i = some none) := by
  unfold ToyVec.get
  by_cases hi : i < v.len
  · rw [if_pos hi]
    have hlt : i < v.elements.length := Nat.lt_of_lt_of_le hi h
    rw [List.getElem?_eq_getElem hlt]
    exact ⟨⟨fun _ => hi, fun _ => ⟨v.elements.get ⟨i, hlt⟩, rfl⟩⟩,
      fun hle => absurd hi (Nat.not_lt.mpr hle)⟩
  · rw [if_neg hi]
    refine ⟨⟨?_, fun hlt => absurd hlt hi⟩, fun _ => rfl⟩
    rintro ⟨x, hx⟩
    simp at hx

/-- C3 witness: a length-2 container with capacity 3, queried at index 1. -/
theorem c3_get_index_range_witness :
    ((∃ x, (ToyVec.mk [10, 20, 30] 2 : ToyVec Nat).get 1 = some (some x)) ↔
        1 < (ToyVec.mk [10, 20, 30] 2 : ToyVec Nat).len) ∧
    ((ToyVec.mk [10, 20, 30] 2 : ToyVec Nat).len ≤ 1 →
        (ToyVec.mk [10, 20, 30] 2 : ToyVec Nat).get 1 = some none) :=
  c3_get_index_range Nat (ToyVec.mk [10, 20, 30] 2) 1 (by decide)

/-- C4: on any container satisfying the representation invariant
`len ≤ capacity`, `push x` succeeds (no panic), increments `len` by exactly 1,
stores `x` at the new index `len - 1`, and grows — capacity 0 to 1, otherwise
doubling — exactly when `len = capacity`, leaving capacity unchanged
otherwise. -/
theorem c4_push_appends (T : Type) (d : T) (v : ToyVec T) (x : T)
    (h : v.len ≤ v.capacity) :
    ∃ v', v.push d x = some v' ∧
      v'.len = v.len + 1 ∧
      v'.elements[v'.len - 1]? = some x ∧
      v'.capacity =
        (if v.len = v.capacity then (if v.capacity = 0 then 1 else v.capacity * 2)
         else v.capacity) := by
  obtain ⟨v', h1, h2, h3, h4, _⟩ := ToyVec.push_spec_aux d v x h
  refine ⟨v', h1, h2, ?_, h4⟩
  rw [h2]
  simpa using h3

/-- C4 witness: pushing 5 into the empty zero-capacity container. -/
theorem c4_push_appends_witness :
    ∃ v', (ToyVec.with_capacity (0 : Nat) 0).push 0 5 = some v' ∧
      v'.len = (ToyVec.with_capacity (0 : Nat) 0).len + 1 ∧
      v'.elements[v'.len - 1]? = some 5 ∧
      v'.capacity =
        (if (ToyVec.with_capacity (0 : Nat) 0).len =
            (ToyVec.with_capacity (0 : Nat) 0).capacity then
          (if (ToyVec.with_capacity (0 : Nat) 0).capacity = 0 then 1
           else (ToyVec.with_capacity (0 : Nat) 0).capacity * 2)
         else (ToyVec.with_capacity (0 : Nat) 0).capacity) :=
  c4_push_appends Nat 0 (ToyVec.with_capacity 0 0) 5 (by decide)

/-- C5: on any container satisfying the representation invariant
`len ≤ capacity`, `push x` followed immediately by `pop` succeeds, returns
`Some x`, and the resulting container has the pre-push length. -/
theorem c5_push_pop_roundtrip (T : Type) (d : T) (v : ToyVec T) (x : T)
    (h : v.len ≤ v.capacity) :
    ∃ v' w, v.push d x = some v' ∧ v'.pop d = some (some x, w) ∧
      w.len = v.len := by
  obtain ⟨v', h1, h2, h3, _, _⟩ := ToyVec.push_spec_aux d v x h
  have hne : ¬v'.len = 0 := by omega
  have hsub : v'.len - 1 = v.len := by omega
  refine ⟨v', { elements := v'.elements.set (v'.len - 1) d, len := v'.len - 1 },
    h1, ?_, hsub⟩
  rw [ToyVec.pop_eq, if_neg hne, hsub, h3]

/-- C5 witness: push 7 into the empty container, then pop. -/
theorem c5_push_pop_roundtrip_witness :
    ∃ v' w, (ToyVec.new (0 : Nat)).push 0 7 = some v' ∧
      v'.pop 0 = some (some 7, w) ∧ w.len = (ToyVec.new (0 : Nat)).len :=
  c5_push_pop_roundtrip Nat 0 (ToyVec.new 0) 7 (by decide)

/-- C6: `pop` on a container with length 0 returns the absence marker without
panicking and leaves both length and capacity unchanged (the state is returned
as is). -/
theorem c6_pop_empty (T : Type) (d : T) (v : ToyVec T) (h : v.len = 0) :
    ∃ w, v.pop d = some (none, w) ∧ w.len = v.len ∧ w.capacity = v.capacity := by
  refine ⟨v, ?_, rfl, rfl⟩
  unfold ToyVec.pop
  rw [if_pos h]

/-- C6 witness: popping the freshly constructed container. -/
theorem c6_pop_empty_witness :
    ∃ w, (ToyVec.new (0 : Nat)).pop 0 = some (none, w) ∧
      w.len = (ToyVec.new (0 : Nat)).len ∧
      w.capacity = (ToyVec.new (0 : Nat)).capacity :=
  c6_pop_empty Nat 0 (ToyVec.new 0) rfl

/-- C7: pushing any sequence of values into `with_capacity(0)` never panics,
and afterwards the length equals the number of pushes, `length ≤ capacity`
holds, the capacity is 0 exactly when nothing was pushed, and the capacity is
always 0 or a power of two (the doubling policy).  Since every prefix of the
sequence is itself such a sequence, the invariant holds after each push. -/
theorem c7_growth_invariant (xs : List Nat) :
    ∃ w, ToyVec.pushList 0 (ToyVec.with_capacity 0 0) xs = some w ∧
      w.len = xs.length ∧ w.len ≤ w.capacity ∧
      (w.capacity = 0 ↔ xs = []) ∧
      (w.capacity = 0 ∨ ∃ k, w.capacity = 2 ^ k) := by
  obtain ⟨w, hw, hlen, hinv, hg⟩ :=
    ToyVec.pushList_spec_aux 0 xs (ToyVec.with_capacity 0 0) (by decide)
      (Or.inl rfl)
  have hv0 : (ToyVec.with_capacity (0 : Nat) 0).len = 0 := rfl
  refine ⟨w, hw, by omega, hinv, ⟨?_, ?_⟩, hg⟩
  · intro hc
    have hxs : xs.length = 0 := by omega
    exact List.length_eq_zero.mp hxs
  · intro hxs
    subst hxs
    have heq : some (ToyVec.with_capacity (0 : Nat) 0) = some w := hw
    injection heq with heq
    rw [← heq]
    rfl

/-- C8: `grow` keeps every existing storage slot's content at the same index
(neither duplicating nor losing an element) while setting the new capacity to
1 from 0 and to double otherwise; consequently any `push` — growing or not —
leaves every previously stored element readable at its original index. -/
theorem c8_grow_preserves_elements (T : Type) (d : T) (v : ToyVec T) (x : T)
    (h : v.len ≤ v.capacity) :
    (∀ i, i < v.capacity → (v.grow d).elements[i]? = v.elements[i]?) ∧
    ((v.grow d).capacity = if v.capacity = 0 then 1 else v.capacity * 2) ∧
    (∃ v', v.push d x = some v' ∧
      ∀ i, i < v.len → v'.elements[i]? = v.elements[i]?) := by
  obtain ⟨v', h1, _, _, _, h5⟩ := ToyVec.push_spec_aux d v x h
  exact ⟨fun i hi => ToyVec.grow_get d v i hi, ToyVec.grow_capacity d v,
    v', h1, h5⟩

/-- C8 witness: a full capacity-4 container receiving a 5th element
(the spec's Scenario D). -/
theorem c8_grow_preserves_elements_witness :
    (∀ i, i < (ToyVec.mk [1, 2, 3, 4] 4 : ToyVec Nat).capacity →
        ((ToyVec.mk [1, 2, 3, 4] 4 : ToyVec Nat).grow 0).elements[i]? =
          (ToyVec.mk [1, 2, 3, 4] 4 : ToyVec Nat).elements[i]?) ∧
    (((ToyVec.mk [1, 2, 3, 4] 4 : ToyVec Nat).grow 0).capacity =
      if (ToyVec.mk [1, 2, 3, 4] 4 : ToyVec Nat).capacity = 0 then 1
      else (ToyVec.mk [1, 2, 3, 4] 4 : ToyVec Nat).capacity * 2) ∧
    (∃ v', (ToyVec.mk [1, 2, 3, 4] 4 : ToyVec Nat).push 0 5 = some v' ∧
      ∀ i, i < (ToyVec.mk [1, 2, 3, 4] 4 : ToyVec Nat).len →
        v'.elements[i]? = (ToyVec.mk [1, 2, 3, 4] 4 : ToyVec Nat).elements[i]?) :=
  c8_grow_preserves_elements Nat 0 (ToyVec.mk [1, 2, 3, 4] 4) 5 (by decide)

/-- C9: on any container satisfying the representation invariant
`len ≤ capacity`, `get_or` agrees with `get` composed with unwrap-or-default,
returns the stored element for an in-range index, and returns the supplied
default unchanged for an out-of-range index. -/
theorem c9_get_or_agrees_with_get (T : Type) (v : ToyVec T) (i : Nat) (dft : T)
    (h : v.len ≤ v.capacity) :
    (v.get_or i dft = (v.get i).map (fun o => o.getD dft)) ∧
    (i < v.len → ∃ x, v.get i = some (some x) ∧ v.get_or i dft = some x) ∧
    (v.len ≤ i → v.get_or i dft = some dft) := by
  refine ⟨?_, ?_, ?_⟩
  · rcases hv : v.get i with _ | o
    · simp [ToyVec.get_or, hv]
    · rcases o with _ | x
      · simp [ToyVec.get_or, hv]
      · simp [ToyVec.get_or, hv]
  · intro hi
    have hlt : i < v.elements.length := Nat.lt_of_lt_of_le hi h
    have hsome : v.get i = some (some (v.elements.get ⟨i, hlt⟩)) := by
      unfold ToyVec.get
      rw [if_pos hi, List.getElem?_eq_getElem hlt]
      rfl
    exact ⟨v.elements.get ⟨i, hlt⟩, hsome, by simp [ToyVec.get_or, hsome]⟩
  · intro hile
    have hnone : v.get i = some none := by
      unfold ToyVec.get
      rw [if_neg (by omega)]
    simp [ToyVec.get_or, hnone]

/-- C9 witness: the spec's Scenario C — a length-3 container queried at
index 10 with default 99 returns the default unchanged. -/
theorem c9_get_or_agrees_with_get_witness :
    ((ToyVec.mk [1, 2, 3] 3 : ToyVec Nat).get_or 10 99 =
        ((ToyVec.mk [1, 2, 3] 3 : ToyVec Nat).get 10).map (fun o => o.getD 99)) ∧
    (10 < (ToyVec.mk [1, 2, 3] 3 : ToyVec Nat).len →
      ∃ x, (ToyVec.mk [1, 2, 3] 3 : ToyVec Nat).get 10 = some (some x) ∧
        (ToyVec.mk [1, 2, 3] 3 : ToyVec Nat).get_or 10 99 = some x) ∧
    ((ToyVec.mk [1, 2, 3] 3 : ToyVec Nat).len ≤ 10 →
      (ToyVec.mk [1, 2, 3] 3 : ToyVec Nat).get_or 10 99 = some 99) :=
  c9_get_or_agrees_with_get Nat (ToyVec.mk [1, 2, 3] 3) 10 99 (by decide)

/-- C10: on the freshly constructed `new()` container (length = capacity = 0,
so position equals the snapshot length immediately), the first `next()` call
of `iter()` passes the `pos > len` test and indexes the storage out of bounds:
the result is the panic marker `none`, not a safe `Some`-or-`None` yield. -/
theorem c10_next_panic_reachable :
    Iter.next (ToyVec.iter (ToyVec.new (0 : Nat))) = none := by
  rfl
